import Mathlib

set_option maxRecDepth 8192

/-!
Verification development for the noorsigner key-custody daemon.

Conventions of the shallow embedding:
* Go byte strings (`[]byte`, and Go `string`s that may hold arbitrary bytes,
  such as a decrypted nsec) are modelled as `List Nat`, each element a byte
  value below 256.
* Go `int64` Unix timestamps are modelled as `Int`; overflow plays no role in
  the verified statements (all involved values are far from 2^63).
* `time.Time` instants are modelled at second granularity as `Int`; only
  strict comparison (`time.Before`) and `Unix()` formatting are used.
* Fallible Go functions returning `(T, error)` are modelled as
  `Except String T`, with the Go error message (its constant part) as payload.
* External cryptographic cores that the repository only calls through a
  library (the scrypt mixing function, SHA-256, Schnorr signing, secp256k1
  public-key derivation) are abstracted as explicit function parameters; the
  repository's own logic around them (parameter validation, XOR stream,
  serialization, framing) is embedded concretely.
-/

/-- Concatenation of the images of `f`, used in place of Go loops that append
byte slices. -/
def listConcat {α β : Type} (f : α → List β) : List α → List β
  | [] => []
  | a :: as => f a ++ listConcat f as

/-! ## storage.go: constants and scrypt parameter validation -/

/-- NIP-49 scrypt parameter `N` from storage.go. -/
def scryptN : Nat := 16384

/-- NIP-49 scrypt parameter `r` from storage.go. -/
def scryptR : Nat := 8

/-- NIP-49 scrypt parameter `p` from storage.go. -/
def scryptP : Nat := 1

/-- Derived key length from storage.go. -/
def keyLen : Nat := 32

/-- Salt length from storage.go. -/
def saltLen : Nat := 16

/-- Go's `math.MaxInt` on a 64-bit platform, used by the scrypt parameter
checks. -/
def goMaxInt : Nat := 2 ^ 63 - 1

/-- Model of `golang.org/x/crypto/scrypt.Key`: the two parameter-validation
checks are translated from the library source; the actual key-derivation
mixing is abstracted as the parameter `kdf` (a pure function of password and
salt), since the repository only relies on it being a deterministic function.
`kLen` is accepted like in Go but (as in Go) not validated. -/
def scryptKeyGo (kdf : List Nat → List Nat → List Nat)
    (password salt : List Nat) (n r p _kLen : Nat) : Except String (List Nat) :=
  if n ≤ 1 || n.land (n - 1) != 0 then
    .error "scrypt: N must be > 1 and a power of 2"
  else if r * p ≥ 2 ^ 30 || r > goMaxInt / 128 / p || r > goMaxInt / 256 ||
      n > goMaxInt / 128 / r then
    .error "scrypt: parameters are too large"
  else
    .ok (kdf password salt)

/-- One pass of the XOR loops in storage.go
(`encrypted[i] = nsecBytes[i] ^ derivedKey[i%len(derivedKey)]`), carrying the
running index `i`. An empty key (impossible for a 32-byte scrypt output) uses
default byte 0 where Go would panic. -/
def xorStreamAux (key : List Nat) : Nat → List Nat → List Nat
  | _, [] => []
  | i, b :: bs => (b ^^^ key.getD (i % key.length) 0) :: xorStreamAux key (i + 1) bs

/-- The repeated-key XOR stream used by `encryptNsec`, `decryptNsec`,
`createTrustSession` and `decryptTrustSessionNsec`. -/
def xorStream (key data : List Nat) : List Nat := xorStreamAux key 0 data

/-- EncryptedKey from storage.go: a salt plus the XOR-encrypted nsec bytes. -/
structure EncryptedKey where
  salt : List Nat
  encryptedNsec : List Nat
deriving DecidableEq, Repr

/-- `encryptNsec` from storage.go. The 16 random salt bytes drawn from
`crypto/rand` are passed in as the `salt` argument. -/
def encryptNsec (kdf : List Nat → List Nat → List Nat)
    (salt nsec password : List Nat) : Except String EncryptedKey :=
  match scryptKeyGo kdf password salt scryptN scryptR scryptP keyLen with
  | .error e => .error ("scrypt key derivation failed: " ++ e)
  | .ok derivedKey => .ok ⟨salt, xorStream derivedKey nsec⟩

/-- `decryptNsec` from storage.go: re-derive the key from the stored salt and
XOR the ciphertext with it. -/
def decryptNsec (kdf : List Nat → List Nat → List Nat)
    (encKey : EncryptedKey) (password : List Nat) : Except String (List Nat) :=
  match scryptKeyGo kdf password encKey.salt scryptN scryptR scryptP keyLen with
  | .error e => .error ("scrypt key derivation failed: " ++ e)
  | .ok derivedKey => .ok (xorStream derivedKey encKey.encryptedNsec)

/-! ## Trust sessions (storage.go / accounts.go) -/

/-- TrustSession from storage.go. `sessionToken` holds the bytes of the hex
string stored in the struct field; the timestamps are Unix seconds. -/
structure TrustSession where
  sessionToken : List Nat
  expiresAt : Int
  createdAt : Int
  encryptedNsec : List Nat
deriving DecidableEq, Repr

/-- `isTrustSessionValid` from storage.go: `time.Now().Before(session.ExpiresAt)`. -/
def isTrustSessionValid (now : Int) (session : TrustSession) : Bool :=
  decide (now < session.expiresAt)

/-- Structural worker for `natDecimal`; the fuel argument only bounds the
digit count and is never exhausted when called with fuel above the number of
digits. -/
def natDecimalAux : Nat → Nat → List Nat
  | 0, _ => []
  | fuel + 1, n => if n < 10 then [48 + n] else natDecimalAux fuel (n / 10) ++ [48 + n % 10]

/-- Decimal digits (ASCII bytes) of a natural number, as produced by Go's
`%d` formatting. -/
def natDecimal (n : Nat) : List Nat := natDecimalAux (n + 1) n

/-- Go `%d` formatting of an `int64`. -/
def intDecimal (i : Int) : List Nat :=
  if i < 0 then 45 :: natDecimal i.natAbs else natDecimal i.toNat

/-- Lower-case hex digit byte for a nibble, matching the constant
`hexChars = "0123456789abcdef"` in accounts.go. -/
def hexDigitByte (n : Nat) : Nat := if n < 10 then 48 + n else 87 + n

/-- `encodeHex` from accounts.go (behaviourally identical to
`encoding/hex.EncodeToString` used in storage.go). -/
def encodeHex (data : List Nat) : List Nat :=
  listConcat (fun b => [hexDigitByte (b >>> 4), hexDigitByte (b &&& 15)]) data

/-- `hexCharToNibble` from accounts.go. -/
def hexCharToNibble (c : Nat) : Except String Nat :=
  if 48 ≤ c ∧ c ≤ 57 then .ok (c - 48)
  else if 97 ≤ c ∧ c ≤ 102 then .ok (c - 97 + 10)
  else if 65 ≤ c ∧ c ≤ 70 then .ok (c - 65 + 10)
  else .error "invalid hex character"

/-- Pair-at-a-time loop of `decodeHex` from accounts.go. -/
def decodeHexPairs : List Nat → Except String (List Nat)
  | [] => .ok []
  | [_] => .error "odd length hex string"
  | hi :: lo :: rest =>
    match hexCharToNibble hi with
    | .error e => .error e
    | .ok h =>
      match hexCharToNibble lo with
      | .error e => .error e
      | .ok l =>
        match decodeHexPairs rest with
        | .error e => .error e
        | .ok bs => .ok (((h <<< 4) ||| l) :: bs)

/-- `decodeHex` from accounts.go (behaviourally identical to
`encoding/hex.DecodeString` used elsewhere in the repository). -/
def decodeHex (s : List Nat) : Except String (List Nat) :=
  if s.length % 2 ≠ 0 then .error "odd length hex string" else decodeHexPairs s

/-- `parseInt64` from accounts.go: digits only (no sign), folding
`result*10 + digit`. Go's silent int64 wrap-around is not reached by any
verified statement (all parsed timestamps are far below 2^63). -/
def parseInt64 (s : List Nat) : Except String Int :=
  match s.foldlM (fun (r : Int) c =>
      if 48 ≤ c ∧ c ≤ 57 then some (r * 10 + (c - 48 : Nat)) else none) (0 : Int) with
  | some r => .ok r
  | none => .error "invalid digit"

/-- File content written by `saveTrustSession` in storage.go:
`fmt.Sprintf("%s:%d:%d:%s", token, expires.Unix(), created.Unix(), hex(ct))`. -/
def saveTrustSessionContent (s : TrustSession) : List Nat :=
  s.sessionToken ++ [58] ++ intDecimal s.expiresAt ++ [58] ++
    intDecimal s.createdAt ++ [58] ++ encodeHex s.encryptedNsec

/-- File content written by `saveAccountTrustSession` in accounts.go (same
`%s:%d:%d:%s` format string as `saveTrustSession`). -/
def saveAccountTrustSessionContent (s : TrustSession) : List Nat :=
  s.sessionToken ++ [58] ++ intDecimal s.expiresAt ++ [58] ++
    intDecimal s.createdAt ++ [58] ++ encodeHex s.encryptedNsec

/-- Model of `strings.Split(content, ":")`, accumulating the current field. -/
def splitColonAux : List Nat → List Nat → List (List Nat)
  | cur, [] => [cur.reverse]
  | cur, b :: rest =>
    if b = 58 then cur.reverse :: splitColonAux [] rest
    else splitColonAux (b :: cur) rest

/-- `strings.Split(content, ":")` over byte strings. -/
def splitColon (s : List Nat) : List (List Nat) := splitColonAux [] s

/-- `createTrustSession` from storage.go. The 32 random token bytes from
`crypto/rand` are the `tokenBytes` argument and the current time is `now`;
the session expires 24 hours (86400 seconds) later and caches the nsec
XOR-encrypted under the first 32 token bytes. -/
def createTrustSession (tokenBytes : List Nat) (now : Int) (nsec : List Nat) :
    TrustSession :=
  ⟨encodeHex tokenBytes, now + 86400, now, xorStream (tokenBytes.take 32) nsec⟩

/-! ## Bech32 codec (github.com/btcsuite/btcd/btcutil/bech32, as called by
crypto.go and accounts.go) -/

/-- The bech32 character set `"qpzry9x8gf2tvdw0s3jn54khce6mua7l"` as bytes. -/
def bech32Charset : List Nat :=
  [113, 112, 122, 114, 121, 57, 120, 56, 103, 102, 50, 116, 118, 100, 119, 48,
   115, 51, 106, 110, 53, 52, 107, 104, 99, 101, 54, 109, 117, 97, 55, 108]

/-- The BIP-173 generator constants. -/
def bech32Gen : List Nat :=
  [0x3b6a57b2, 0x26508e6d, 0x1ea119fa, 0x3d4233dd, 0x2a1462b3]

/-- One step of the bech32 checksum polymod. -/
def bech32PolymodStep (chk v : Nat) : Nat :=
  let b := chk >>> 25
  let chk1 := ((chk &&& 0x1ffffff) <<< 5) ^^^ v
  (List.range 5).foldl
    (fun c i => if (b >>> i) &&& 1 == 1 then c ^^^ bech32Gen.getD i 0 else c) chk1

/-- BIP-173 polymod over a list of 5-bit values. -/
def bech32Polymod (values : List Nat) : Nat := values.foldl bech32PolymodStep 1

/-- BIP-173 HRP expansion: high bits, a zero, then low bits of each HRP byte. -/
def bech32HrpExpand (hrp : List Nat) : List Nat :=
  hrp.map (· >>> 5) ++ [0] ++ hrp.map (· &&& 31)

/-- Checksum for a bech32 string (classic bech32, constant 1), as computed by
the btcutil encoder. -/
def bech32ChecksumFor (hrp data : List Nat) : List Nat :=
  let poly := bech32Polymod (bech32HrpExpand hrp ++ data ++ [0, 0, 0, 0, 0, 0]) ^^^ 1
  (List.range 6).map (fun i => (poly >>> (5 * (5 - i))) &&& 31)

/-- `bech32.Encode`: append the checksum and translate each 5-bit value
through the charset, failing on any value outside it. -/
def bech32Encode (hrp data : List Nat) : Except String (List Nat) :=
  let combined := data ++ bech32ChecksumFor hrp data
  if combined.any (fun b => b ≥ 32) then .error "invalid data byte"
  else .ok (hrp ++ [49] ++ combined.map (fun b => bech32Charset.getD b 0))

/-- Go `strings.ToLower` on an ASCII byte. -/
def toLowerByte (b : Nat) : Nat := if 65 ≤ b ∧ b ≤ 90 then b + 32 else b

/-- Go `strings.ToUpper` on an ASCII byte. -/
def toUpperByte (b : Nat) : Nat := if 97 ≤ b ∧ b ≤ 122 then b - 32 else b

/-- Index of the last occurrence of byte `b` (`strings.LastIndexByte`). -/
def lastIdxOfByte (b : Nat) (l : List Nat) : Option Nat :=
  ((l.enum.filter (fun p => p.2 == b)).getLast?).map (·.1)

/-- Translate the data part through the charset, failing on an unknown
character. -/
def bech32CharsetValues : List Nat → Except String (List Nat)
  | [] => .ok []
  | c :: rest =>
    match bech32Charset.findIdx? (· == c) with
    | none => .error "invalid character in data"
    | some v =>
      match bech32CharsetValues rest with
      | .error e => .error e
      | .ok vs => .ok (v :: vs)

/-- `bech32.Decode` from btcutil: length limits, printable-ASCII and
mixed-case checks, split at the last `'1'`, charset translation, and
verification that the classic bech32 checksum polymod equals 1. Returns the
HRP and the 5-bit data values without the 6 checksum values. -/
def bech32Decode (bech : List Nat) : Except String (List Nat × List Nat) :=
  if bech.length > 90 then .error "invalid bech32 string length"
  else if bech.length < 8 then .error "invalid bech32 string length"
  else if bech.any (fun b => b < 33 || b > 126) then
    .error "invalid character in string"
  else if bech ≠ bech.map toLowerByte ∧ bech ≠ bech.map toUpperByte then
    .error "string not all lowercase or all uppercase"
  else
    let low := bech.map toLowerByte
    match lastIdxOfByte 49 low with
    | none => .error "invalid index of 1"
    | some one =>
      if one < 1 ∨ one + 7 > low.length then .error "invalid index of 1"
      else
        match bech32CharsetValues (low.drop (one + 1)) with
        | .error e => .error e
        | .ok vals =>
          if bech32Polymod (bech32HrpExpand (low.take one) ++ vals) ≠ 1 then
            .error "checksum failed"
          else .ok (low.take one, vals.take (vals.length - 6))

/-- Bounded emission loop of `bech32.ConvertBits`: while at least `toBits`
bits are pending, emit the top group. The fuel bound (8 suffices per input
byte) only serves termination; it is never exhausted. -/
def convertBitsDrain (toBits maxv : Nat) :
    Nat → Nat → Nat → List Nat → Nat × Nat × List Nat
  | 0, acc, bits, out => (acc, bits, out)
  | fuel + 1, acc, bits, out =>
    if bits ≥ toBits then
      convertBitsDrain toBits maxv fuel acc (bits - toBits)
        (out ++ [(acc >>> (bits - toBits)) &&& maxv])
    else (acc, bits, out)

/-- `bech32.ConvertBits` from btcutil: regroup a big-endian bit stream from
`fromBits`-bit groups to `toBits`-bit groups. Without padding, an incomplete
final group longer than 4 bits or with non-zero bits is rejected, exactly as
in the Go source. -/
def convertBits (data : List Nat) (fromBits toBits : Nat) (pad : Bool) :
    Except String (List Nat) :=
  if fromBits < 1 || fromBits > 8 || toBits < 1 || toBits > 8 then
    .error "only bit groups between 1 and 8 allowed"
  else
    let maxv := 2 ^ toBits - 1
    let st := data.foldl
      (fun (st : Nat × Nat × List Nat) b =>
        let acc := (st.1 <<< fromBits) ||| (b &&& (2 ^ fromBits - 1))
        convertBitsDrain toBits maxv 8 acc (st.2.1 + fromBits) st.2.2)
      (0, 0, [])
    let acc := st.1
    let bits := st.2.1
    let out := st.2.2
    if pad then
      .ok (if bits > 0 then out ++ [(acc <<< (toBits - bits)) &&& maxv] else out)
    else if bits > 4 || (acc &&& (2 ^ bits - 1)) ≠ 0 then
      .error "invalid incomplete group"
    else .ok out

/-! ## crypto.go: key parsing and npub codec -/

/-- `strings.HasPrefix` over byte strings. -/
def startsWithBytes (pre l : List Nat) : Bool := l.take pre.length == pre

/-- The bytes of `"nsec1"`. -/
def nsec1Bytes : List Nat := [110, 115, 101, 99, 49]

/-- The bytes of `"npub1"`. -/
def npub1Bytes : List Nat := [110, 112, 117, 98, 49]

/-- The bytes of the HRP `"npub"`. -/
def npubHrpBytes : List Nat := [110, 112, 117, 98]

/-- `nsecToPrivateKey` from crypto.go: bech32 path for `nsec1…`, hex path
otherwise, then a 32-byte length check. `btcec.PrivKeyFromBytes` never fails
and its scalar reduction mod the curve order is irrelevant to every verified
statement, so the function returns the 32 decoded key bytes. -/
def nsecToPrivateKey (nsec : List Nat) : Except String (List Nat) :=
  match (if startsWithBytes nsec1Bytes nsec then
      match bech32Decode nsec with
      | .error e => .error ("invalid bech32 nsec: " ++ e)
      | .ok (_, data) =>
        match convertBits data 5 8 false with
        | .error e => .error ("bech32 conversion failed: " ++ e)
        | .ok keyBytes => .ok keyBytes
    else
      match decodeHex nsec with
      | .error e => .error ("invalid hex nsec: " ++ e)
      | .ok keyBytes => .ok keyBytes : Except String (List Nat)) with
  | .error e => .error e
  | .ok keyBytes =>
    if keyBytes.length ≠ 32 then .error "nsec must be 32 bytes"
    else .ok keyBytes

/-- `npubToPubkey` from accounts.go: require the `npub1` name form, decode
the bech32 payload, regroup to bytes and hex-encode them (no length check,
as in the source). -/
def npubToPubkey (npub : List Nat) : Except String (List Nat) :=
  if !startsWithBytes npub1Bytes npub then .error "invalid npub format"
  else
    match bech32Decode npub with
    | .error e => .error ("invalid bech32: " ++ e)
    | .ok (_, data) =>
      match convertBits data 5 8 false with
      | .error e => .error ("bit conversion failed: " ++ e)
      | .ok converted => .ok (encodeHex converted)

/-- `privateKeyToNpub` from crypto.go. The secp256k1 x-only public-key
serialization `schnorr.SerializePubKey(privateKey.PubKey())` is abstracted
as the parameter `pubkeyBytesOf`; the 8→5 bit regrouping, bech32 encoding
and the hex fall-backs are embedded concretely. -/
def privateKeyToNpub (pubkeyBytesOf : List Nat → List Nat)
    (privKey : List Nat) : List Nat :=
  let pubKeyBytes := pubkeyBytesOf privKey
  match convertBits pubKeyBytes 8 5 true with
  | .error _ => encodeHex pubKeyBytes
  | .ok converted =>
    match bech32Encode npubHrpBytes converted with
    | .error _ => encodeHex pubKeyBytes
    | .ok npub => npub

/-! ## Filesystem model and accounts.go operations -/

/-- One directory entry under `<root>/accounts/`, with the contents of the
two per-account files when present. `modTime` is the directory modification
time that `listAccounts` reports as the creation timestamp. -/
structure AccountEntry where
  name : List Nat
  isDir : Bool
  modTime : Int
  keys : Option (List Nat)
  trust : Option (List Nat)
deriving DecidableEq, Repr

/-- The parts of the on-disk state that the verified operations touch: the
entries of `accounts/` (in arbitrary on-disk order) and the contents of the
`active_account` file when it exists. -/
structure NoorFS where
  accounts : List AccountEntry
  active : Option (List Nat)
deriving DecidableEq, Repr

/-- Metadata row returned by `listAccounts` (AccountInfo in accounts.go),
with the `created_at` timestamp as Unix seconds. -/
structure AccountInfo where
  npub : List Nat
  pubkey : List Nat
  createdAt : Int
deriving DecidableEq, Repr

/-- `sanitizeNpubForPath` from accounts.go: truncate names longer than 70
bytes. -/
def sanitizeNpubForPath (npub : List Nat) : List Nat :=
  if npub.length > 70 then npub.take 70 else npub

/-- Byte-wise lexicographic `≤` on byte strings, the order in which Go's
`os.ReadDir` reports directory entries. -/
def bytesLe : List Nat → List Nat → Bool
  | [], _ => true
  | a :: as, b :: bs =>
    if a < b then true else if b < a then false else bytesLe as bs
  | _, [] => false

/-- `os.ReadDir` on `accounts/`: the entries sorted by filename. -/
def readAccountsDir (fs : NoorFS) : List AccountEntry :=
  List.insertionSort (fun a b => bytesLe a.name b.name = true) fs.accounts

/-- `listAccounts` from accounts.go: keep directories whose name starts with
`npub1` and whose name decodes through `npubToPubkey`; presence of
`keys.encrypted` is not consulted. -/
def listAccounts (fs : NoorFS) : List AccountInfo :=
  (readAccountsDir fs).filterMap (fun e =>
    if !e.isDir then none
    else if !startsWithBytes npub1Bytes e.name then none
    else
      match npubToPubkey e.name with
      | .error _ => none
      | .ok pubkey => some ⟨e.name, pubkey, e.modTime⟩)

/-- Look up the `accounts/` entry with the given (sanitized) file name. -/
def findEntry (fs : NoorFS) (name : List Nat) : Option AccountEntry :=
  fs.accounts.find? (fun e => e.name == name)

/-- `accountExists` from accounts.go: `os.Stat` on
`accounts/<npub>/keys.encrypted` succeeds. -/
def accountExists (fs : NoorFS) (npub : List Nat) : Bool :=
  match findEntry fs (sanitizeNpubForPath npub) with
  | some e => e.keys.isSome
  | none => false

/-- Go `unicode.IsSpace` restricted to the byte range relevant here (an npub
is ASCII). -/
def isSpaceByte (b : Nat) : Bool := b == 32 || (9 ≤ b && b ≤ 13)

/-- `strings.TrimSpace` over byte strings. -/
def trimSpaceBytes (s : List Nat) : List Nat :=
  ((s.dropWhile isSpaceByte).reverse.dropWhile isSpaceByte).reverse

/-- `loadActiveAccount` from accounts.go: read `active_account` and trim
whitespace, failing when the file does not exist. -/
def loadActiveAccount (fs : NoorFS) : Except String (List Nat) :=
  match fs.active with
  | none => .error "no active account set"
  | some content => .ok (trimSpaceBytes content)

/-- `saveActiveAccount` from accounts.go: write the npub to
`active_account`. -/
def saveActiveAccount (fs : NoorFS) (npub : List Nat) : NoorFS :=
  { fs with active := some npub }

/-- Raw byte string of a Go `%v`/`%s` interpolation, for error messages that
embed a file name. -/
def strOfBytes (bs : List Nat) : String := String.mk (bs.map Char.ofNat)

/-- Model of `strings.SplitN(s, ":", 2)`. -/
def splitN2Colon (s : List Nat) : List (List Nat) :=
  let pre := s.takeWhile (fun b => b ≠ 58)
  if pre.length = s.length then [s] else [pre, s.drop (pre.length + 1)]

/-- `loadAccountEncryptedKey` from accounts.go: stat the key file, split its
content at the first `:` and hex-decode the two fields. -/
def loadAccountEncryptedKey (fs : NoorFS) (npub : List Nat) :
    Except String EncryptedKey :=
  match findEntry fs (sanitizeNpubForPath npub) with
  | none => .error ("account not found: " ++ strOfBytes npub)
  | some e =>
    match e.keys with
    | none => .error ("account not found: " ++ strOfBytes npub)
    | some content =>
      match splitN2Colon content with
      | [saltHex, encHex] =>
        match decodeHex saltHex with
        | .error er => .error ("invalid salt in account key file: " ++ er)
        | .ok salt =>
          match decodeHex encHex with
          | .error er => .error ("invalid encrypted data in account key file: " ++ er)
          | .ok enc => .ok ⟨salt, enc⟩
      | _ => .error "invalid account key file format"

/-- `saveAccountEncryptedKey` from accounts.go: create the account directory
if needed (`mtime` is its creation time) and write
`hex(salt) ":" hex(ciphertext)` to `keys.encrypted`. -/
def saveAccountEncryptedKey (fs : NoorFS) (npub : List Nat)
    (encKey : EncryptedKey) (mtime : Int) : NoorFS :=
  let safe := sanitizeNpubForPath npub
  let content := encodeHex encKey.salt ++ [58] ++ encodeHex encKey.encryptedNsec
  match findEntry fs safe with
  | some _ =>
    { fs with accounts := fs.accounts.map (fun e =>
        if e.name == safe then { e with keys := some content } else e) }
  | none => { fs with accounts := fs.accounts ++ [⟨safe, true, mtime, some content, none⟩] }

/-- `saveAccountTrustSession`'s filesystem effect: write the trust-session
file into an existing account directory; when the directory is missing the
`os.WriteFile` error is ignored by every caller, so the state is unchanged. -/
def writeAccountTrust (fs : NoorFS) (npub content : List Nat) : NoorFS :=
  let safe := sanitizeNpubForPath npub
  match findEntry fs safe with
  | some _ =>
    { fs with accounts := fs.accounts.map (fun e =>
        if e.name == safe then { e with trust := some content } else e) }
  | none => fs

/-- `removeAccount` from accounts.go: stat the account directory, delete it
recursively, then clear `active_account` if it named this npub. -/
def removeAccount (fs : NoorFS) (npub : List Nat) : Except String NoorFS :=
  let safe := sanitizeNpubForPath npub
  if (findEntry fs safe).isNone then .error ("account not found: " ++ strOfBytes npub)
  else
    let fs1 : NoorFS := ⟨fs.accounts.filter (fun e => e.name ≠ safe), fs.active⟩
    match loadActiveAccount fs1 with
    | .ok activeNpub => if activeNpub == npub then .ok ⟨fs1.accounts, none⟩ else .ok fs1
    | .error _ => .ok fs1

/-! ## Daemon state and the multi-account IPC handlers -/

/-- In-memory daemon state guarded by the readers/writer lock: the loaded
private key (32 bytes) with the identity strings. -/
structure DaemonSt where
  privateKey : Option (List Nat)
  npub : List Nat
  pubkey : List Nat
deriving DecidableEq, Repr

/-- The fields of a SignRequest that the account handlers read. -/
structure IpcRequest where
  npub : List Nat
  pubkey : List Nat
  nsec : List Nat
  password : List Nat
  setActive : Bool
deriving DecidableEq, Repr

/-- AccountActionResponse: `success`, optional identity fields, and the
error string. -/
structure ActionResponse where
  success : Bool
  pubkey : List Nat
  npub : List Nat
  error : String
deriving DecidableEq, Repr

/-- Target-npub resolution shared by `switch_account` and `remove_account`:
take `req.npub` when present, otherwise scan `listAccounts` for a matching
pubkey. -/
def resolveTargetNpub (fs : NoorFS) (req : IpcRequest) : List Nat :=
  if req.npub ≠ [] then req.npub
  else if req.pubkey ≠ [] then
    match (listAccounts fs).find? (fun a => a.pubkey == req.pubkey) with
    | some a => a.npub
    | none => []
  else []

/-- The `switch_account` case of `Daemon.handleConnection`. `tokenBytes` and
`now` feed the fresh trust session; the result is the response together with
the filesystem and daemon state after the call. -/
def switchAccountHandler (kdf : List Nat → List Nat → List Nat)
    (tokenBytes : List Nat) (now : Int) (fs : NoorFS) (d : DaemonSt)
    (req : IpcRequest) : ActionResponse × NoorFS × DaemonSt :=
  let targetNpub := resolveTargetNpub fs req
  if targetNpub = [] then (⟨false, [], [], "pubkey or npub required"⟩, fs, d)
  else if req.password = [] then (⟨false, [], [], "password required"⟩, fs, d)
  else if !accountExists fs targetNpub then
    (⟨false, [], [], "account not found"⟩, fs, d)
  else
    match loadAccountEncryptedKey fs targetNpub with
    | .error e => (⟨false, [], [], "failed to load account: " ++ e⟩, fs, d)
    | .ok encKey =>
      match decryptNsec kdf encKey req.password with
      | .error _ => (⟨false, [], [], "invalid password"⟩, fs, d)
      | .ok nsec =>
        match nsecToPrivateKey nsec with
        | .error _ => (⟨false, [], [], "corrupted key file"⟩, fs, d)
        | .ok newPrivateKey =>
          let newPubkey := match npubToPubkey targetNpub with
            | .ok p => p
            | .error _ => []
          let fs1 := writeAccountTrust fs targetNpub
            (saveAccountTrustSessionContent (createTrustSession tokenBytes now nsec))
          let d1 : DaemonSt := ⟨some newPrivateKey, targetNpub, newPubkey⟩
          let fs2 := saveActiveAccount fs1 targetNpub
          (⟨true, newPubkey, targetNpub, ""⟩, fs2, d1)

/-- The `add_account` case of `Daemon.handleConnection`. `salt` is the random
scrypt salt, `pubkeyBytesOf` the secp256k1 public-key derivation, and
`mtime` the creation time of a new account directory. The handler never
touches the in-memory daemon state; environmental file-write failures (the
`failed to save account` branch) are outside the model, whose filesystem
writes always succeed. -/
def addAccountHandler (kdf : List Nat → List Nat → List Nat)
    (salt : List Nat) (pubkeyBytesOf : List Nat → List Nat) (mtime : Int)
    (fs : NoorFS) (req : IpcRequest) : ActionResponse × NoorFS :=
  if req.nsec = [] || req.password = [] then
    (⟨false, [], [], "nsec and password required"⟩, fs)
  else
    match nsecToPrivateKey req.nsec with
    | .error e => (⟨false, [], [], "invalid nsec: " ++ e⟩, fs)
    | .ok privKey =>
      let npub := privateKeyToNpub pubkeyBytesOf privKey
      if accountExists fs npub then (⟨false, [], [], "account already exists"⟩, fs)
      else
        match encryptNsec kdf salt req.nsec req.password with
        | .error e => (⟨false, [], [], "encryption failed: " ++ e⟩, fs)
        | .ok encKey =>
          let fs1 := saveAccountEncryptedKey fs npub encKey mtime
          let fs2 := if req.setActive then saveActiveAccount fs1 npub else fs1
          let pubkey := match npubToPubkey npub with
            | .ok p => p
            | .error _ => []
          (⟨true, pubkey, npub, ""⟩, fs2)

/-- Password acceptance of the interactive `addAccount` loop in main.go: the
loop re-prompts while `len(password1) < 8`, so a password is accepted
exactly when its byte length is at least 8 (confirmation mismatch also
re-prompts but does not depend on the password value being re-used). -/
def cliPasswordLengthOk (password : List Nat) : Bool := !(password.length < 8)

/-! ## crypto.go: NIP-01 event hashing -/

/-- Parsed JSON values as produced by `json.Unmarshal` into
`map[string]interface{}`. Go represents every JSON number as a `float64`;
the verified statements only involve numbers that are integers of magnitude
below 2^53, on which the `float64` is exact, so numbers are carried as the
exact `Int`. Object keys are unique after unmarshalling (later duplicates
overwrite earlier ones). -/
inductive JVal where
  | null : JVal
  | bool : Bool → JVal
  | num : Int → JVal
  | str : List Char → JVal
  | arr : List JVal → JVal
  | obj : List (List Char × JVal) → JVal

/-- Lexicographic `≤` on strings as lists of characters; for the key sorting
of Go's map marshalling this agrees with Go's byte-wise sort because UTF-8
preserves code-point order. -/
def charsLe : List Char → List Char → Bool
  | [], _ => true
  | a :: as, b :: bs =>
    if a.toNat < b.toNat then true
    else if b.toNat < a.toNat then false
    else charsLe as bs
  | _, [] => false

/-- Go `encoding/json` string escaping of one character with
`SetEscapeHTML(false)`: quote, backslash and control characters are escaped
(`<`, `>`, `&` are not), and U+2028/U+2029 are escaped for JavaScript
compatibility. -/
def goEscapeChar (c : Char) : List Char :=
  if c = '"' then ['\\', '"']
  else if c = '\\' then ['\\', '\\']
  else if c = '\n' then ['\\', 'n']
  else if c = '\r' then ['\\', 'r']
  else if c = '\t' then ['\\', 't']
  else if c.toNat < 32 then
    ['\\', 'u', '0', '0', Char.ofNat (hexDigitByte (c.toNat >>> 4)),
     Char.ofNat (hexDigitByte (c.toNat &&& 15))]
  else if c.toNat = 0x2028 then ['\\', 'u', '2', '0', '2', '8']
  else if c.toNat = 0x2029 then ['\\', 'u', '2', '0', '2', '9']
  else [c]

/-- Go `encoding/json` rendering of a JSON string (with HTML escaping
disabled). -/
def goQuote (s : List Char) : List Char :=
  '"' :: listConcat goEscapeChar s ++ ['"']

/-- Go `%d`-style rendering of an integer as characters; `encoding/json`
emits exactly these digits both for Go integers and for `float64` values
that are integers of magnitude below 2^53 (such values are below 10^21, so
`strconv.AppendFloat` uses the non-exponent form). -/
def intChars (i : Int) : List Char := (intDecimal i).map Char.ofNat

/-- Sort object fields by key, as Go's map marshalling does. -/
def sortFields (fields : List (List Char × JVal)) : List (List Char × JVal) :=
  List.insertionSort (fun a b => charsLe a.1 b.1 = true) fields

mutual

/-- Recursively sort every object's fields by key, reflecting that Go's map
marshalling emits keys in sorted order at every nesting depth. -/
def sortKeysDeep : JVal → JVal
  | .null => .null
  | .bool b => .bool b
  | .num n => .num n
  | .str s => .str s
  | .arr xs => .arr (sortKeysDeepList xs)
  | .obj fields => .obj (sortFields (sortKeysDeepFields fields))

/-- `sortKeysDeep` over array elements. -/
def sortKeysDeepList : List JVal → List JVal
  | [] => []
  | x :: xs => sortKeysDeep x :: sortKeysDeepList xs

/-- `sortKeysDeep` over object fields. -/
def sortKeysDeepFields : List (List Char × JVal) → List (List Char × JVal)
  | [] => []
  | (k, v) :: rest => (k, sortKeysDeep v) :: sortKeysDeepFields rest

end

mutual

/-- Compact rendering of a JSON value whose object fields are already
sorted. -/
def goMarshalRaw : JVal → List Char
  | .null => "null".toList
  | .bool true => "true".toList
  | .bool false => "false".toList
  | .num n => intChars n
  | .str s => goQuote s
  | .arr xs => '[' :: goMarshalList xs ++ [']']
  | .obj fields => Char.ofNat 123 :: goMarshalFields fields ++ [Char.ofNat 125]

/-- Comma-separated marshalling of array elements. -/
def goMarshalList : List JVal → List Char
  | [] => []
  | [x] => goMarshalRaw x
  | x :: y :: rest => goMarshalRaw x ++ ',' :: goMarshalList (y :: rest)

/-- Comma-separated marshalling of object fields. -/
def goMarshalFields : List (List Char × JVal) → List Char
  | [] => []
  | [(k, v)] => goQuote k ++ ':' :: goMarshalRaw v
  | (k, v) :: f :: rest =>
    goQuote k ++ ':' :: goMarshalRaw v ++ ',' :: goMarshalFields (f :: rest)

end

/-- Compact `encoding/json` marshalling (no whitespace, HTML escaping
disabled, map keys sorted) of a parsed JSON value. -/
def goMarshal (v : JVal) : List Char := goMarshalRaw (sortKeysDeep v)

/-- Read a field from the unmarshalled event map. -/
def lookupField (fields : List (List Char × JVal)) (key : List Char) : Option JVal :=
  (fields.find? (fun f => f.1 == key)).map (·.2)

/-- UTF-8 encoding of one character (RFC 3629), the byte content of a Go
string. -/
def utf8EncodeCharNat (c : Char) : List Nat :=
  let n := c.toNat
  if n < 0x80 then [n]
  else if n < 0x800 then [0xC0 ||| (n >>> 6), 0x80 ||| (n &&& 0x3F)]
  else if n < 0x10000 then
    [0xE0 ||| (n >>> 12), 0x80 ||| ((n >>> 6) &&& 0x3F), 0x80 ||| (n &&& 0x3F)]
  else
    [0xF0 ||| (n >>> 18), 0x80 ||| ((n >>> 12) &&& 0x3F),
     0x80 ||| ((n >>> 6) &&& 0x3F), 0x80 ||| (n &&& 0x3F)]

/-- UTF-8 bytes of a character string. -/
def utf8Bytes (s : List Char) : List Nat := listConcat utf8EncodeCharNat s

/-- `bytes.TrimSuffix(buf, "\n")`: drop one trailing newline byte if
present. -/
def trimSuffixNewline (bs : List Nat) : List Nat :=
  if bs.getLast? == some 10 then bs.dropLast else bs

/-- Field extraction and serialization of `createEventHash` from crypto.go:
take the event's `pubkey`, `created_at`, `kind`, `tags` and `content` fields
(with the source's type assertions and error messages) and marshal the
NIP-01 array `[0, pubkey, created_at, kind, tags, content]`, where
`created_at` and `kind` have been converted to `int64`. -/
def eventSerialization (evt : JVal) : Except String (List Char) :=
  match evt with
  | .obj fields =>
    match lookupField fields "pubkey".toList with
    | some (.str pubkey) =>
      (match lookupField fields "created_at".toList with
      | some (.num createdAt) =>
        (match lookupField fields "kind".toList with
        | some (.num kind) =>
          (match lookupField fields "tags".toList with
          | some (.arr tags) =>
            (match lookupField fields "content".toList with
            | some (.str content) =>
              .ok (goMarshal (.arr [.num 0, .str pubkey, .num createdAt,
                .num kind, .arr tags, .str content]))
            | _ => .error "missing or invalid content field")
          | _ => .error "missing or invalid tags field")
        | _ => .error "missing or invalid kind field")
      | _ => .error "missing or invalid created_at field")
    | _ => .error "missing or invalid pubkey field"
  | _ => .error "invalid event JSON"

/-- `createEventHash` from crypto.go: serialize the NIP-01 array with an
`Encoder` (which appends one newline), strip that newline with
`bytes.TrimSuffix`, and hash the resulting bytes. SHA-256 itself is the
abstract parameter `sha`. -/
def createEventHash (sha : List Nat → List Nat) (evt : JVal) :
    Except String (List Nat) :=
  match eventSerialization evt with
  | .error e => .error e
  | .ok ser => .ok (sha (trimSuffixNewline (utf8Bytes ser ++ [10])))

/-- `Daemon.signEvent` from the multi-account daemon: hash the event, then
Schnorr-sign the hash with the in-memory private key (the signing core is
the abstract parameter `sign`; a daemon serving requests always holds a key,
so the nil-pointer default is never reached). -/
def daemonSignEvent (sha : List Nat → List Nat)
    (sign : List Nat → List Nat → List Nat) (d : DaemonSt) (evt : JVal) :
    Except String (List Nat) :=
  match createEventHash sha evt with
  | .error e => .error ("failed to hash event: " ++ e)
  | .ok h => .ok (sign (d.privateKey.getD []) h)

/-- Exact integer value of a JSON number literal when it is integral.
Models the composition used by crypto.go: `json.Unmarshal` parses the
literal into a `float64` and the code truncates with `int64(·)`; for
literals whose value is an integer of magnitude below 2^53 (the domain of
every verified statement) the float is exact and this yields precisely the
mathematical value computed here. Non-integral or malformed literals give
`none`. -/
def jsonNumberToInt (s : List Char) : Option Int :=
  let (neg, s1) : Bool × List Char :=
    match s with
    | '-' :: r => (true, r)
    | _ => (false, s)
  let ip := s1.takeWhile Char.isDigit
  let s2 := s1.dropWhile Char.isDigit
  if ip = [] then none
  else
    let fracRes : Option (List Char × List Char) :=
      match s2 with
      | '.' :: r =>
        let fp := r.takeWhile Char.isDigit
        if fp = [] then none else some (fp, r.dropWhile Char.isDigit)
      | _ => some ([], s2)
    match fracRes with
    | none => none
    | some (fp, s3) =>
      let expRes : Option (Bool × List Char × List Char) :=
        match s3 with
        | 'e' :: r | 'E' :: r =>
          let (esign, r1) : Bool × List Char :=
            match r with
            | '-' :: r2 => (true, r2)
            | '+' :: r2 => (false, r2)
            | _ => (false, r)
          let ed := r1.takeWhile Char.isDigit
          if ed = [] then none else some (esign, ed, r1.dropWhile Char.isDigit)
        | _ => some (false, [], s3)
      match expRes with
      | none => none
      | some (eneg, ed, s4) =>
        if s4 ≠ [] then none
        else
          let mant : Nat := (ip ++ fp).foldl (fun a c => a * 10 + (c.toNat - 48)) 0
          let expVal : Int :=
            (if eneg then -(ed.foldl (fun a c => a * 10 + (c.toNat - 48)) 0 : Int)
             else (ed.foldl (fun a c => a * 10 + (c.toNat - 48)) 0 : Int)) - fp.length
          let mag : Option Int :=
            if 0 ≤ expVal then some ((mant : Int) * 10 ^ expVal.toNat)
            else if (mant : Int) % 10 ^ (-expVal).toNat = 0 then
              some ((mant : Int) / 10 ^ (-expVal).toNat)
            else none
          mag.map (fun m => if neg then -m else m)

/-- Trust-session file content following the words of spec §3
(`hex(token) ":" created_unix ":" expires_unix ":" hex(ciphertext)`), stated
for comparison with the content the source actually writes. -/
def specTrustContentCreatedFirst (s : TrustSession) : List Nat :=
  s.sessionToken ++ [58] ++ intDecimal s.createdAt ++ [58] ++
    intDecimal s.expiresAt ++ [58] ++ encodeHex s.encryptedNsec

/-! ## Helper lemmas -/

theorem xorStreamAux_involutive (key : List Nat) (i : Nat) (bs : List Nat) :
    xorStreamAux key i (xorStreamAux key i bs) = bs := by
  induction bs generalizing i with
  | nil => rfl
  | cons b rest ih => simp [xorStreamAux, ih, Nat.xor_cancel_right]

theorem xorStreamAux_length (key : List Nat) (i : Nat) (bs : List Nat) :
    (xorStreamAux key i bs).length = bs.length := by
  induction bs generalizing i with
  | nil => rfl
  | cons b rest ih => simp [xorStreamAux, ih]

theorem scryptKeyGo_valid_params (kdf : List Nat → List Nat → List Nat)
    (password salt : List Nat) :
    scryptKeyGo kdf password salt scryptN scryptR scryptP keyLen =
      .ok (kdf password salt) := by
  rfl

theorem mem_listConcat {α β : Type} (f : α → List β) (l : List α) (x : β) :
    x ∈ listConcat f l ↔ ∃ a ∈ l, x ∈ f a := by
  induction l with
  | nil => simp [listConcat]
  | cons a as ih => simp [listConcat, ih]

theorem natDecimalAux_digits (fuel n : Nat) :
    ∀ x ∈ natDecimalAux fuel n, 48 ≤ x ∧ x ≤ 57 := by
  induction fuel generalizing n with
  | zero => simp [natDecimalAux]
  | succ fuel ih =>
    rw [natDecimalAux]
    split
    · intro x hx
      simp only [List.mem_singleton] at hx
      omega
    · intro x hx
      rw [List.mem_append] at hx
      rcases hx with hx | hx
      · exact ih (n / 10) x hx
      · simp only [List.mem_singleton] at hx
        have := Nat.mod_lt n (show 0 < 10 by omega)
        omega

theorem natDecimal_digits (n : Nat) : ∀ x ∈ natDecimal n, 48 ≤ x ∧ x ≤ 57 :=
  natDecimalAux_digits (n + 1) n

theorem intDecimal_nonneg_noColon (i : Int) (h : 0 ≤ i) :
    ∀ x ∈ intDecimal i, x ≠ 58 := by
  intro x hx
  unfold intDecimal at hx
  rw [if_neg (by omega)] at hx
  have := natDecimal_digits i.toNat x hx
  omega

theorem hexDigitByte_ne_colon (n : Nat) : hexDigitByte n ≠ 58 := by
  unfold hexDigitByte
  split <;> omega

theorem encodeHex_noColon (bs : List Nat) : ∀ x ∈ encodeHex bs, x ≠ 58 := by
  intro x hx
  rw [encodeHex, mem_listConcat] at hx
  obtain ⟨b, _, hb⟩ := hx
  simp only [List.mem_cons, List.mem_singleton, List.not_mem_nil, or_false] at hb
  rcases hb with rfl | rfl <;> exact hexDigitByte_ne_colon _

theorem splitColonAux_noColon (a : List Nat) (h : ∀ x ∈ a, x ≠ 58) (cur : List Nat) :
    splitColonAux cur a = [cur.reverse ++ a] := by
  induction a generalizing cur with
  | nil => simp [splitColonAux]
  | cons b rest ih =>
    have hb : b ≠ 58 := h b (List.mem_cons_self b rest)
    rw [splitColonAux, if_neg hb, ih (fun x hx => h x (List.mem_cons_of_mem _ hx))]
    simp

theorem splitColonAux_append (a : List Nat) (h : ∀ x ∈ a, x ≠ 58)
    (rest cur : List Nat) :
    splitColonAux cur (a ++ 58 :: rest) =
      (cur.reverse ++ a) :: splitColonAux [] rest := by
  induction a generalizing cur with
  | nil => simp [splitColonAux]
  | cons b t ih =>
    have hb : b ≠ 58 := h b (List.mem_cons_self b t)
    rw [List.cons_append, splitColonAux, if_neg hb,
      ih (fun x hx => h x (List.mem_cons_of_mem _ hx))]
    simp

/-! ## Claim theorems -/

/-- C1: for every KDF core, salt, password and nsec, encrypting the nsec and
decrypting the result with the same password returns the nsec unchanged: the
scrypt parameters pass validation, the salt stored at encryption is reused,
and the repeated-key XOR stream is involutive. -/
theorem claim_c1_encrypt_decrypt_roundtrip
    (kdf : List Nat → List Nat → List Nat) (salt nsec password : List Nat) :
    ∃ ek : EncryptedKey, encryptNsec kdf salt nsec password = .ok ek ∧
      decryptNsec kdf ek password = .ok nsec := by
  refine ⟨⟨salt, xorStream (kdf password salt) nsec⟩, ?_, ?_⟩
  · rw [encryptNsec, scryptKeyGo_valid_params]
  · rw [decryptNsec]
    show (match scryptKeyGo kdf password salt scryptN scryptR scryptP keyLen with
      | .error e => .error ("scrypt key derivation failed: " ++ e)
      | .ok derivedKey =>
        .ok (xorStream derivedKey (xorStream (kdf password salt) nsec)) :
        Except String (List Nat)) = .ok nsec
    rw [scryptKeyGo_valid_params]
    simp [xorStream, xorStreamAux_involutive]

/-- C7: a trust session is valid exactly when the current instant is
strictly before `expiresAt`; at `now = expiresAt` the session counts as
expired. -/
theorem claim_c7_trust_session_boundary :
    (∀ (now : Int) (s : TrustSession),
      isTrustSessionValid now s = true ↔ now < s.expiresAt) ∧
    (∀ s : TrustSession, isTrustSessionValid s.expiresAt s = false) := by
  constructor
  · intro now s
    simp [isTrustSessionValid]
  · intro s
    simp [isTrustSessionValid]

/-- Witness for C7 at a concrete session whose expiry equals the current
instant. -/
theorem claim_c7_witness :
    isTrustSessionValid 7 ⟨[], 7, 0, []⟩ = false :=
  claim_c7_trust_session_boundary.2 ⟨[], 7, 0, []⟩

/-- C8 counterexample: for a session with `createdAt = 100` and
`expiresAt = 200`, the content written by `saveTrustSession` differs from
the §3 layout in which the created timestamp precedes the expires
timestamp — the source writes the expires timestamp first. -/
theorem claim_c8_counterexample :
    saveTrustSessionContent ⟨[97, 98], 200, 100, [171]⟩ ≠
      specTrustContentCreatedFirst ⟨[97, 98], 200, 100, [171]⟩ := by
  decide

/-- C8 (amended): the stored trust-session content is the four
colon-separated fields `token ":" expires_unix ":" created_unix ":"
hex(ciphertext)` — the expires timestamp precedes the created timestamp, as
§6 lists — and `saveTrustSession` (storage.go) and `saveAccountTrustSession`
(accounts.go) write the same format; splitting the content at `:` recovers
exactly the four fields in that order. -/
theorem claim_c8_trust_session_format (s : TrustSession)
    (htok : ∀ x ∈ s.sessionToken, x ≠ 58)
    (he : 0 ≤ s.expiresAt) (hc : 0 ≤ s.createdAt) :
    saveAccountTrustSessionContent s = saveTrustSessionContent s ∧
    saveTrustSessionContent s =
      s.sessionToken ++ [58] ++ intDecimal s.expiresAt ++ [58] ++
        intDecimal s.createdAt ++ [58] ++ encodeHex s.encryptedNsec ∧
    splitColon (saveTrustSessionContent s) =
      [s.sessionToken, intDecimal s.expiresAt, intDecimal s.createdAt,
        encodeHex s.encryptedNsec] := by
  refine ⟨rfl, rfl, ?_⟩
  rw [saveTrustSessionContent, splitColon]
  have hassoc : s.sessionToken ++ [58] ++ intDecimal s.expiresAt ++ [58] ++
      intDecimal s.createdAt ++ [58] ++ encodeHex s.encryptedNsec =
      s.sessionToken ++ 58 :: (intDecimal s.expiresAt ++ 58 ::
        (intDecimal s.createdAt ++ 58 :: encodeHex s.encryptedNsec)) := by
    simp
  rw [hassoc, splitColonAux_append s.sessionToken htok,
    splitColonAux_append (intDecimal s.expiresAt) (intDecimal_nonneg_noColon _ he),
    splitColonAux_append (intDecimal s.createdAt) (intDecimal_nonneg_noColon _ hc),
    splitColonAux_noColon (encodeHex s.encryptedNsec) (encodeHex_noColon _)]
  simp

/-- Witness for C8's amended theorem at a concrete session. -/
theorem claim_c8_witness :
    splitColon (saveTrustSessionContent ⟨[97, 98], 200, 100, [171]⟩) =
      [[97, 98], intDecimal 200, intDecimal 100, encodeHex [171]] :=
  (claim_c8_trust_session_format ⟨[97, 98], 200, 100, [171]⟩
    (by decide) (by decide) (by decide)).2.2

theorem decryptNsec_ok (kdf : List Nat → List Nat → List Nat)
    (encKey : EncryptedKey) (password : List Nat) :
    decryptNsec kdf encKey password =
      .ok (xorStream (kdf password encKey.salt) encKey.encryptedNsec) := by
  rw [decryptNsec]
  rw [scryptKeyGo_valid_params]

/-- C2: when the supplied password does not decrypt the target account's key
to a parseable nsec, the `switch_account` handler answers with an error
response and returns the filesystem (including `active_account`) and the
in-memory daemon state exactly as they were. -/
theorem claim_c2_switch_account_atomic_on_failure
    (kdf : List Nat → List Nat → List Nat) (tokenBytes : List Nat) (now : Int)
    (fs : NoorFS) (d : DaemonSt) (req : IpcRequest)
    (encKey : EncryptedKey) (nsec : List Nat) (e : String)
    (hres : resolveTargetNpub fs req ≠ [])
    (hpw : req.password ≠ [])
    (hacct : accountExists fs (resolveTargetNpub fs req) = true)
    (hload : loadAccountEncryptedKey fs (resolveTargetNpub fs req) = .ok encKey)
    (hdec : decryptNsec kdf encKey req.password = .ok nsec)
    (hparse : nsecToPrivateKey nsec = .error e) :
    switchAccountHandler kdf tokenBytes now fs d req =
      (⟨false, [], [], "corrupted key file"⟩, fs, d) := by
  unfold switchAccountHandler
  rw [if_neg hres, if_neg hpw, hacct]
  simp only [Bool.not_true, Bool.false_eq_true, if_false, hload, hdec, hparse]

/-- Witness for C2: a concrete account whose stored ciphertext decrypts (under
a concrete KDF core) to bytes that are not a valid nsec; the handler reports
an error and both states are returned unchanged. -/
theorem claim_c2_witness :
    switchAccountHandler (fun _ _ => List.replicate 32 0) [] 0
      ⟨[⟨[110, 112, 117, 98, 49, 120], true, 0, some [48, 48, 58, 55, 97, 55, 97], none⟩],
        some [110, 112, 117, 98, 49, 120]⟩
      ⟨some [1], [2], [3]⟩
      ⟨[110, 112, 117, 98, 49, 120], [], [], [112], false⟩ =
    (⟨false, [], [], "corrupted key file"⟩,
      ⟨[⟨[110, 112, 117, 98, 49, 120], true, 0, some [48, 48, 58, 55, 97, 55, 97], none⟩],
        some [110, 112, 117, 98, 49, 120]⟩,
      ⟨some [1], [2], [3]⟩) :=
  claim_c2_switch_account_atomic_on_failure
    (fun _ _ => List.replicate 32 0) [] 0
    ⟨[⟨[110, 112, 117, 98, 49, 120], true, 0, some [48, 48, 58, 55, 97, 55, 97], none⟩],
      some [110, 112, 117, 98, 49, 120]⟩
    ⟨some [1], [2], [3]⟩
    ⟨[110, 112, 117, 98, 49, 120], [], [], [112], false⟩
    ⟨[0], [122, 122]⟩ [122, 122] "invalid hex nsec: invalid hex character"
    (by decide) (by decide) (by decide) (by rfl) (by rfl) (by rfl)

/-- C10: `decryptNsec` is total — the repository's fixed scrypt parameters
pass the library's validation, so for every encrypted key and every password
it returns (without error) the XOR of the ciphertext with the derived key
stream, whose byte length equals the ciphertext length; consequently the
`invalid password` branch that `switch_account` keeps for a decryption error
can never be taken, for any inputs. -/
theorem claim_c10_decrypt_total :
    (∀ (kdf : List Nat → List Nat → List Nat) (encKey : EncryptedKey)
        (password : List Nat),
      decryptNsec kdf encKey password =
        .ok (xorStream (kdf password encKey.salt) encKey.encryptedNsec) ∧
      (xorStream (kdf password encKey.salt) encKey.encryptedNsec).length =
        encKey.encryptedNsec.length) ∧
    (∀ (kdf : List Nat → List Nat → List Nat) (tokenBytes : List Nat)
        (now : Int) (fs : NoorFS) (d : DaemonSt) (req : IpcRequest),
      (switchAccountHandler kdf tokenBytes now fs d req).1.error ≠
        "invalid password") := by
  constructor
  · intro kdf encKey password
    exact ⟨decryptNsec_ok kdf encKey password,
      xorStreamAux_length _ 0 encKey.encryptedNsec⟩
  · intro kdf tokenBytes now fs d req
    simp only [switchAccountHandler]
    by_cases h1 : resolveTargetNpub fs req = []
    · rw [if_pos h1]
      exact fun h => (by decide :
        ¬("pubkey or npub required" = "invalid password")) h
    · rw [if_neg h1]
      by_cases h2 : req.password = []
      · rw [if_pos h2]
        exact fun h => (by decide : ¬("password required" = "invalid password")) h
      · rw [if_neg h2]
        by_cases h3 : accountExists fs (resolveTargetNpub fs req)
        · rw [h3]
          simp only [Bool.not_true, Bool.false_eq_true, if_false]
          cases hload : loadAccountEncryptedKey fs (resolveTargetNpub fs req) with
          | error e =>
            intro hcontra
            have hlen := congrArg String.length hcontra
            simp only [String.length_append] at hlen
            have h24 : ("failed to load account: " : String).length = 24 := by decide
            have h16 : ("invalid password" : String).length = 16 := by decide
            omega
          | ok encKey =>
            simp only [decryptNsec_ok]
            cases hparse : nsecToPrivateKey
                (xorStream (kdf req.password encKey.salt) encKey.encryptedNsec) with
            | error e =>
              exact fun h => (by decide :
                ¬("corrupted key file" = "invalid password")) h
            | ok newPrivateKey =>
              exact fun h => (by decide : ¬("" = "invalid password")) h
        · rw [Bool.not_eq_true] at h3
          rw [h3]
          simp only [Bool.not_false, if_true]
          exact fun h => (by decide : ¬("account not found" = "invalid password")) h

theorem listAccounts_npub_mem (fs : NoorFS) (a : AccountInfo)
    (ha : a ∈ listAccounts fs) : ∃ e ∈ fs.accounts, a.npub = e.name := by
  rw [listAccounts] at ha
  obtain ⟨e, he, hfe⟩ := List.mem_filterMap.mp ha
  refine ⟨e, (List.perm_insertionSort _ fs.accounts).mem_iff.mp he, ?_⟩
  by_cases h1 : e.isDir
  · rw [h1] at hfe
    simp only [Bool.not_true, Bool.false_eq_true, if_false] at hfe
    by_cases h2 : startsWithBytes npub1Bytes e.name
    · rw [h2] at hfe
      simp only [Bool.not_true, Bool.false_eq_true, if_false] at hfe
      cases hpk : npubToPubkey e.name with
      | error er => rw [hpk] at hfe; cases hfe
      | ok pk =>
        rw [hpk] at hfe
        cases hfe
        rfl
    · rw [Bool.not_eq_true] at h2
      rw [h2] at hfe
      simp only [Bool.not_false, if_true] at hfe
      cases hfe
  · rw [Bool.not_eq_true] at h1
    rw [h1] at hfe
    simp only [Bool.not_false, if_true] at hfe
    cases hfe

theorem sanitize_short (npub : List Nat) (h : npub.length ≤ 70) :
    sanitizeNpubForPath npub = npub := by
  rw [sanitizeNpubForPath, if_neg (by omega)]

/-- C9: removing an existing account (of ordinary npub length) deletes its
directory entry, makes it disappear from `listAccounts`, and clears
`active_account` when that file named the removed npub, after which
`loadActiveAccount` fails; removing a non-existent account fails with the
not-found error. -/
theorem claim_c9_remove_account (fs : NoorFS) (npub : List Nat)
    (hlen : npub.length ≤ 70) :
    ((findEntry fs npub).isSome = true →
      ∃ fs', removeAccount fs npub = .ok fs' ∧
        (∀ e ∈ fs'.accounts, e.name ≠ npub) ∧
        (∀ a ∈ listAccounts fs', a.npub ≠ npub) ∧
        (∀ c, fs.active = some c → trimSpaceBytes c = npub →
          fs'.active = none ∧
          loadActiveAccount fs' = .error "no active account set")) ∧
    ((findEntry fs npub).isNone = true →
      removeAccount fs npub =
        .error ("account not found: " ++ strOfBytes npub)) := by
  have hsan : sanitizeNpubForPath npub = npub := sanitize_short npub hlen
  constructor
  · intro hfound
    have hnotnone : ¬(findEntry fs npub).isNone = true := by
      cases h : findEntry fs npub
      · rw [h] at hfound; cases hfound
      · simp
    have hfilter : ∀ e ∈ fs.accounts.filter (fun e => e.name ≠ npub),
        e.name ≠ npub := by
      intro e he
      have := List.of_mem_filter he
      simpa using this
    have hlist : ∀ (ac : List AccountEntry),
        (∀ e ∈ ac, e.name ≠ npub) → ∀ (act : Option (List Nat)),
        ∀ a ∈ listAccounts ⟨ac, act⟩, a.npub ≠ npub := by
      intro ac hac act a ha
      obtain ⟨e, he, hname⟩ := listAccounts_npub_mem ⟨ac, act⟩ a ha
      rw [hname]
      exact hac e he
    rw [removeAccount, hsan]
    rw [if_neg (by simp_all)]
    cases hact : fs.active with
    | none =>
      refine ⟨⟨fs.accounts.filter (fun e => e.name ≠ npub), fs.active⟩, ?_, ?_, ?_, ?_⟩
      · simp only [loadActiveAccount, hact]
      · exact hfilter
      · exact hlist _ hfilter fs.active
      · intro c hc
        cases hc
    | some c =>
      by_cases htrim : trimSpaceBytes c = npub
      · refine ⟨⟨fs.accounts.filter (fun e => e.name ≠ npub), none⟩, ?_, ?_, ?_, ?_⟩
        · simp only [loadActiveAccount, hact, htrim]
          simp
        · exact hfilter
        · exact hlist _ hfilter none
        · intro c' hc' _
          exact ⟨rfl, rfl⟩
      · refine ⟨⟨fs.accounts.filter (fun e => e.name ≠ npub), fs.active⟩, ?_, ?_, ?_, ?_⟩
        · simp only [loadActiveAccount, hact]
          rw [if_neg (by simpa using htrim)]
        · exact hfilter
        · exact hlist _ hfilter fs.active
        · intro c' hc' htrim'
          cases hc'
          exact absurd htrim' htrim
  · intro hmissing
    rw [removeAccount, hsan, if_pos hmissing]

/-- Witness for C9 at a concrete store: one account directory that is also
the active account. -/
theorem claim_c9_witness :
    ∃ fs', removeAccount
        ⟨[⟨[110, 112, 117, 98, 49, 120], true, 0, some [48], none⟩],
          some [110, 112, 117, 98, 49, 120]⟩ [110, 112, 117, 98, 49, 120] = .ok fs' ∧
      (∀ e ∈ fs'.accounts, e.name ≠ [110, 112, 117, 98, 49, 120]) ∧
      (∀ a ∈ listAccounts fs', a.npub ≠ [110, 112, 117, 98, 49, 120]) ∧
      (∀ c, (⟨[⟨[110, 112, 117, 98, 49, 120], true, 0, some [48], none⟩],
          some [110, 112, 117, 98, 49, 120]⟩ : NoorFS).active = some c →
        trimSpaceBytes c = [110, 112, 117, 98, 49, 120] →
        fs'.active = none ∧
        loadActiveAccount fs' = .error "no active account set") :=
  (claim_c9_remove_account
    ⟨[⟨[110, 112, 117, 98, 49, 120], true, 0, some [48], none⟩],
      some [110, 112, 117, 98, 49, 120]⟩ [110, 112, 117, 98, 49, 120]
    (by decide)).1 (by decide)

/-- C5 counterexample: through the IPC `add_account` handler a 7-byte
password succeeds — the handler returns `success = true` with no error — so
the minimum-length rule does not hold for the IPC method. -/
theorem claim_c5_counterexample :
    ((addAccountHandler (fun _ _ => List.replicate 32 0) [1]
        (fun _ => List.replicate 32 0) 0 ⟨[], none⟩
        ⟨[], [], List.replicate 64 48, [49, 50, 51, 52, 53, 54, 55], false⟩).1.success
      = true) ∧
    ((addAccountHandler (fun _ _ => List.replicate 32 0) [1]
        (fun _ => List.replicate 32 0) 0 ⟨[], none⟩
        ⟨[], [], List.replicate 64 48, [49, 50, 51, 52, 53, 54, 55], false⟩).1.error
      = "") ∧
    ([49, 50, 51, 52, 53, 54, 55] : List Nat).length = 7 := by
  refine ⟨by decide, by decide, by decide⟩

/-- C5 (amended): the 8-byte minimum is enforced only by the interactive CLI
`addAccount` loop, which accepts a password exactly when its length is at
least 8 (so 8 characters succeed and 7 re-prompt); the IPC `add_account`
handler performs no length check: with a valid nsec, any non-empty password
— in particular one of 7 bytes — succeeds. -/
theorem claim_c5_password_length :
    (∀ password : List Nat, cliPasswordLengthOk password = true ↔ 8 ≤ password.length) ∧
    (∀ (kdf : List Nat → List Nat → List Nat) (salt : List Nat)
        (pubkeyBytesOf : List Nat → List Nat) (mtime : Int) (fs : NoorFS)
        (req : IpcRequest) (privKey : List Nat),
      req.nsec ≠ [] → req.password ≠ [] →
      nsecToPrivateKey req.nsec = .ok privKey →
      accountExists fs (privateKeyToNpub pubkeyBytesOf privKey) = false →
      (addAccountHandler kdf salt pubkeyBytesOf mtime fs req).1.success = true ∧
      (addAccountHandler kdf salt pubkeyBytesOf mtime fs req).1.error = "") := by
  constructor
  · intro password
    rw [cliPasswordLengthOk]
    simp
  · intro kdf salt pubkeyBytesOf mtime fs req privKey hnsec hpw hparse hexists
    unfold addAccountHandler
    rw [if_neg (by simp [hnsec, hpw])]
    simp only [hparse, hexists, Bool.false_eq_true, if_false]
    rw [encryptNsec, scryptKeyGo_valid_params]
    exact ⟨rfl, rfl⟩

/-- Witness for C5's amended theorem: the IPC handler accepts the 7-byte
password `"1234567"` for a fresh hex nsec on an empty store. -/
theorem claim_c5_witness :
    (addAccountHandler (fun _ _ => List.replicate 32 0) [1]
        (fun _ => List.replicate 32 0) 0 ⟨[], none⟩
        ⟨[], [], List.replicate 64 48, [49, 50, 51, 52, 53, 54, 55], false⟩).1.success
      = true ∧
    (addAccountHandler (fun _ _ => List.replicate 32 0) [1]
        (fun _ => List.replicate 32 0) 0 ⟨[], none⟩
        ⟨[], [], List.replicate 64 48, [49, 50, 51, 52, 53, 54, 55], false⟩).1.error
      = "" :=
  claim_c5_password_length.2 (fun _ _ => List.replicate 32 0) [1]
    (fun _ => List.replicate 32 0) 0 ⟨[], none⟩
    ⟨[], [], List.replicate 64 48, [49, 50, 51, 52, 53, 54, 55], false⟩
    (List.replicate 32 0) (by decide) (by decide) rfl (by decide)

theorem bytesLe_total : ∀ a b : List Nat, bytesLe a b = true ∨ bytesLe b a = true := by
  intro a
  induction a with
  | nil => intro b; left; cases b <;> rfl
  | cons x xs ih =>
    intro b
    cases b with
    | nil => right; rfl
    | cons y ys =>
      rw [bytesLe, bytesLe]
      rcases Nat.lt_trichotomy x y with h | h | h
      · left; rw [if_pos h]
      · subst h
        simp only [Nat.lt_irrefl, if_false]
        exact ih ys
      · right; rw [if_pos h]

theorem bytesLe_trans : ∀ a b c : List Nat, bytesLe a b = true →
    bytesLe b c = true → bytesLe a c = true := by
  intro a
  induction a with
  | nil => intro b c _ _; cases c <;> rfl
  | cons x xs ih =>
    intro b c h1 h2
    cases b with
    | nil => cases h1
    | cons y ys =>
      cases c with
      | nil => cases h2
      | cons z zs =>
        rw [bytesLe] at h1 h2 ⊢
        by_cases hxy : x < y
        · rw [if_pos hxy] at h1
          by_cases hyz : y < z
          · rw [if_pos (by omega)]
          · rw [if_neg hyz] at h2
            by_cases hzy : z < y
            · rw [if_pos hzy] at h2; cases h2
            · have : y = z := by omega
              subst this
              rw [if_pos hxy]
        · rw [if_neg hxy] at h1
          by_cases hyx : y < x
          · rw [if_pos hyx] at h1; cases h1
          · have hxy2 : x = y := by omega
            subst hxy2
            by_cases hxz : x < z
            · rw [if_pos hxz]
            · rw [if_neg hxz] at h2 ⊢
              by_cases hzx : z < x
              · rw [if_pos hzx] at h2; cases h2
              · rw [if_neg hzx] at h2 ⊢
                rw [if_neg hxy] at h1
                exact ih ys zs h1 h2

theorem pairwise_filterMap_of_pairwise {α β : Type}
    (R : α → α → Prop) (S : β → β → Prop) (f : α → Option β)
    (himp : ∀ a b x y, R a b → f a = some x → f b = some y → S x y) :
    ∀ l : List α, List.Pairwise R l → List.Pairwise S (l.filterMap f) := by
  intro l
  induction l with
  | nil => intro _; simp
  | cons x xs ih =>
    intro hp
    rw [List.pairwise_cons] at hp
    rw [List.filterMap_cons]
    cases hfx : f x with
    | none => exact ih hp.2
    | some b =>
      rw [List.pairwise_cons]
      refine ⟨?_, ih hp.2⟩
      intro y hy
      obtain ⟨a, ha, hfa⟩ := List.mem_filterMap.mp hy
      exact himp x a b y (hp.1 a ha) hfx hfa

theorem mem_listAccounts_iff (fs : NoorFS) (a : AccountInfo) :
    a ∈ listAccounts fs ↔ ∃ e ∈ fs.accounts, e.isDir = true ∧
      startsWithBytes npub1Bytes e.name = true ∧
      npubToPubkey e.name = .ok a.pubkey ∧ a.npub = e.name ∧
      a.createdAt = e.modTime := by
  constructor
  · intro ha
    rw [listAccounts] at ha
    obtain ⟨e, he, hfe⟩ := List.mem_filterMap.mp ha
    refine ⟨e, (List.perm_insertionSort _ fs.accounts).mem_iff.mp he, ?_⟩
    by_cases h1 : e.isDir
    · rw [h1] at hfe
      simp only [Bool.not_true, Bool.false_eq_true, if_false] at hfe
      by_cases h2 : startsWithBytes npub1Bytes e.name
      · rw [h2] at hfe
        simp only [Bool.not_true, Bool.false_eq_true, if_false] at hfe
        cases hpk : npubToPubkey e.name with
        | error er => rw [hpk] at hfe; cases hfe
        | ok pk =>
          rw [hpk] at hfe
          cases hfe
          exact ⟨h1, h2, rfl, rfl, rfl⟩
      · rw [Bool.not_eq_true] at h2
        rw [h2] at hfe
        simp only [Bool.not_false, if_true] at hfe
        cases hfe
    · rw [Bool.not_eq_true] at h1
      rw [h1] at hfe
      simp only [Bool.not_false, if_true] at hfe
      cases hfe
  · intro ⟨e, he, hdir, hstart, hpk, hnp, hct⟩
    rw [listAccounts]
    refine List.mem_filterMap.mpr ⟨e,
      (List.perm_insertionSort _ fs.accounts).mem_iff.mpr he, ?_⟩
    rw [hdir, hstart]
    simp only [Bool.not_true, Bool.false_eq_true, if_false]
    rw [hpk]
    cases a with
    | mk npub pubkey createdAt =>
      simp only at hnp hct
      rw [hnp, hct]

/-- C6 counterexample: a directory entry named by a syntactically valid npub
but containing no `keys.encrypted` file is still returned by `listAccounts`,
while `accountExists` for the same npub is false — membership in `list()` is
not determined by presence of `keys.encrypted`. -/
theorem claim_c6_counterexample :
    ((listAccounts ⟨[⟨privateKeyToNpub (fun _ => List.replicate 32 0) [],
        true, 5, none, none⟩], none⟩).map (fun a => a.npub) =
      [privateKeyToNpub (fun _ => List.replicate 32 0) []]) ∧
    accountExists ⟨[⟨privateKeyToNpub (fun _ => List.replicate 32 0) [],
        true, 5, none, none⟩], none⟩
      (privateKeyToNpub (fun _ => List.replicate 32 0) []) = false := by
  constructor
  · decide
  · decide

/-- C6 (amended): `listAccounts` returns exactly the entries of `accounts/`
that are directories whose name starts with `npub1` and decodes through
`npubToPubkey` — presence of `keys.encrypted` is not consulted (only
`accountExists` checks it) — and the returned sequence is sorted by npub in
ascending byte-lexicographic order. -/
theorem claim_c6_list_accounts (fs : NoorFS) :
    (∀ a : AccountInfo, a ∈ listAccounts fs ↔ ∃ e ∈ fs.accounts,
      e.isDir = true ∧ startsWithBytes npub1Bytes e.name = true ∧
      npubToPubkey e.name = .ok a.pubkey ∧ a.npub = e.name ∧
      a.createdAt = e.modTime) ∧
    List.Pairwise (fun x y => bytesLe x y = true)
      ((listAccounts fs).map (fun a => a.npub)) := by
  constructor
  · exact fun a => mem_listAccounts_iff fs a
  · have htot : IsTotal AccountEntry (fun a b => bytesLe a.name b.name = true) :=
      ⟨fun a b => bytesLe_total a.name b.name⟩
    have htrans : IsTrans AccountEntry (fun a b => bytesLe a.name b.name = true) :=
      ⟨fun a b c => bytesLe_trans a.name b.name c.name⟩
    have hsorted : List.Pairwise (fun a b => bytesLe a.name b.name = true)
        (readAccountsDir fs) :=
      @List.sorted_insertionSort AccountEntry
        (fun a b => bytesLe a.name b.name = true) _ htot htrans fs.accounts
    rw [List.pairwise_map]
    rw [listAccounts]
    refine pairwise_filterMap_of_pairwise _ _ _ ?_ _ hsorted
    intro e1 e2 a1 a2 hr hf1 hf2
    have hn1 : a1.npub = e1.name := by
      by_cases h1 : e1.isDir
      · rw [h1] at hf1
        simp only [Bool.not_true, Bool.false_eq_true, if_false] at hf1
        by_cases h2 : startsWithBytes npub1Bytes e1.name
        · rw [h2] at hf1
          simp only [Bool.not_true, Bool.false_eq_true, if_false] at hf1
          cases hpk : npubToPubkey e1.name with
          | error er => rw [hpk] at hf1; cases hf1
          | ok pk => rw [hpk] at hf1; cases hf1; rfl
        · rw [Bool.not_eq_true] at h2
          rw [h2] at hf1
          simp only [Bool.not_false, if_true] at hf1
          cases hf1
      · rw [Bool.not_eq_true] at h1
        rw [h1] at hf1
        simp only [Bool.not_false, if_true] at hf1
        cases hf1
    have hn2 : a2.npub = e2.name := by
      by_cases h1 : e2.isDir
      · rw [h1] at hf2
        simp only [Bool.not_true, Bool.false_eq_true, if_false] at hf2
        by_cases h2 : startsWithBytes npub1Bytes e2.name
        · rw [h2] at hf2
          simp only [Bool.not_true, Bool.false_eq_true, if_false] at hf2
          cases hpk : npubToPubkey e2.name with
          | error er => rw [hpk] at hf2; cases hf2
          | ok pk => rw [hpk] at hf2; cases hf2; rfl
        · rw [Bool.not_eq_true] at h2
          rw [h2] at hf2
          simp only [Bool.not_false, if_true] at hf2
          cases hf2
      · rw [Bool.not_eq_true] at h1
        rw [h1] at hf2
        simp only [Bool.not_false, if_true] at hf2
        cases hf2
    rw [hn1, hn2]
    exact hr

/-- Witness for C6's amended theorem: the membership characterization
applied at a concrete store with a keyless npub-named directory. -/
theorem claim_c6_witness :
    (⟨privateKeyToNpub (fun _ => List.replicate 32 0) [],
        encodeHex (List.replicate 32 0), 5⟩ : AccountInfo) ∈
      listAccounts ⟨[⟨privateKeyToNpub (fun _ => List.replicate 32 0) [],
        true, 5, none, none⟩], none⟩ :=
  ((claim_c6_list_accounts
      ⟨[⟨privateKeyToNpub (fun _ => List.replicate 32 0) [], true, 5, none, none⟩],
        none⟩).1
    ⟨privateKeyToNpub (fun _ => List.replicate 32 0) [],
      encodeHex (List.replicate 32 0), 5⟩).mpr
    ⟨⟨privateKeyToNpub (fun _ => List.replicate 32 0) [], true, 5, none, none⟩,
      by decide, by decide, by decide, by rfl, by decide, by decide⟩

theorem goEscapeChar_plain (c : Char) (h32 : 32 ≤ c.toNat) (hq : c ≠ '"')
    (hb : c ≠ '\\') (h28 : c.toNat ≠ 0x2028) (h29 : c.toNat ≠ 0x2029) :
    goEscapeChar c = [c] := by
  have hn : c ≠ Char.ofNat 10 := by
    intro h
    rw [h] at h32
    simp [Char.ofNat] at h32
  rw [goEscapeChar]
  rw [if_neg hq, if_neg hb]
  rw [if_neg ?n1, if_neg ?n2, if_neg ?n3, if_neg (by omega), if_neg h28,
    if_neg h29]
  case n1 =>
    intro h
    have : c.toNat = 10 := by rw [h]; rfl
    omega
  case n2 =>
    intro h
    have : c.toNat = 13 := by rw [h]; rfl
    omega
  case n3 =>
    intro h
    have : c.toNat = 9 := by rw [h]; rfl
    omega

theorem listConcat_goEscapeChar_plain (s : List Char)
    (hs : ∀ c ∈ s, 32 ≤ c.toNat ∧ c ≠ '"' ∧ c ≠ '\\' ∧ c.toNat ≠ 0x2028 ∧
      c.toNat ≠ 0x2029) : listConcat goEscapeChar s = s := by
  induction s with
  | nil => rfl
  | cons c cs ih =>
    have hc := hs c (List.mem_cons_self c cs)
    rw [listConcat, goEscapeChar_plain c hc.1 hc.2.1 hc.2.2.1 hc.2.2.2.1 hc.2.2.2.2,
      ih (fun x hx => hs x (List.mem_cons_of_mem _ hx))]
    rfl

theorem getLast?_append_ten (bs : List Nat) : (bs ++ [10]).getLast? = some 10 := by
  induction bs with
  | nil => rfl
  | cons b t ih =>
    rw [List.cons_append, List.getLast?_cons, ih]
    cases t <;> rfl

theorem dropLast_append_ten (bs : List Nat) : (bs ++ [10]).dropLast = bs := by
  induction bs with
  | nil => rfl
  | cons b t ih =>
    rw [List.cons_append, List.dropLast_cons_of_ne_nil (by simp), ih]

theorem trimSuffixNewline_append (bs : List Nat) :
    trimSuffixNewline (bs ++ [10]) = bs := by
  rw [trimSuffixNewline, getLast?_append_ten]
  simp [dropLast_append_ten bs]

theorem eventSerialization_ok (fields : List (List Char × JVal))
    (pubkey content : List Char) (createdAt kind : Int) (tags : List JVal)
    (hpk : lookupField fields "pubkey".toList = some (.str pubkey))
    (hca : lookupField fields "created_at".toList = some (.num createdAt))
    (hk : lookupField fields "kind".toList = some (.num kind))
    (ht : lookupField fields "tags".toList = some (.arr tags))
    (hc : lookupField fields "content".toList = some (.str content)) :
    eventSerialization (.obj fields) =
      .ok (goMarshal (.arr [.num 0, .str pubkey, .num createdAt, .num kind,
        .arr tags, .str content])) := by
  rw [eventSerialization, hpk, hca, hk, ht, hc]

theorem createEventHash_ok (sha : List Nat → List Nat)
    (fields : List (List Char × JVal))
    (pubkey content : List Char) (createdAt kind : Int) (tags : List JVal)
    (hpk : lookupField fields "pubkey".toList = some (.str pubkey))
    (hca : lookupField fields "created_at".toList = some (.num createdAt))
    (hk : lookupField fields "kind".toList = some (.num kind))
    (ht : lookupField fields "tags".toList = some (.arr tags))
    (hc : lookupField fields "content".toList = some (.str content)) :
    createEventHash sha (.obj fields) =
      .ok (sha (utf8Bytes (goMarshal (.arr [.num 0, .str pubkey, .num createdAt,
        .num kind, .arr tags, .str content])))) := by
  rw [createEventHash, eventSerialization_ok fields pubkey content createdAt kind tags
    hpk hca hk ht hc]
  simp only [trimSuffixNewline_append]

theorem goMarshal_event_array (pubkey content : List Char)
    (createdAt kind : Int) (tags : List JVal) :
    goMarshal (.arr [.num 0, .str pubkey, .num createdAt, .num kind,
        .arr tags, .str content]) =
      '[' :: '0' :: ',' :: (goQuote pubkey ++ ',' :: (intChars createdAt ++
        ',' :: (intChars kind ++ ',' :: (goMarshal (.arr tags) ++
        ',' :: (goQuote content ++ [']']))))) := by
  simp [goMarshal, sortKeysDeep, sortKeysDeepList, goMarshalRaw, goMarshalList,
    intChars, intDecimal, natDecimal, natDecimalAux]

/-- C3: for every event object with a string `pubkey`, numeric `created_at`
and `kind`, array `tags` and string `content`, the event hash is SHA-256 of
the compact serialization of `[0, pubkey, created_at, kind, tags, content]`:
the serialization is exactly the bracketed comma-joined concatenation with
`created_at` and `kind` emitted as decimal integers; `<`, `>` and `&` are
not escaped (strings of plain characters are emitted verbatim); the float
literal `1.6942e9` is re-emitted as the integer 1694200000; and the newline
appended by the JSON encoder is stripped before hashing, so the hashed bytes
carry no trailing newline. -/
theorem claim_c3_event_hash (sha : List Nat → List Nat)
    (fields : List (List Char × JVal))
    (pubkey content : List Char) (createdAt kind : Int) (tags : List JVal)
    (hpk : lookupField fields "pubkey".toList = some (.str pubkey))
    (hca : lookupField fields "created_at".toList = some (.num createdAt))
    (hk : lookupField fields "kind".toList = some (.num kind))
    (ht : lookupField fields "tags".toList = some (.arr tags))
    (hc : lookupField fields "content".toList = some (.str content)) :
    createEventHash sha (.obj fields) =
      .ok (sha (utf8Bytes (goMarshal (.arr [.num 0, .str pubkey, .num createdAt,
        .num kind, .arr tags, .str content])))) ∧
    goMarshal (.arr [.num 0, .str pubkey, .num createdAt, .num kind,
        .arr tags, .str content]) =
      '[' :: '0' :: ',' :: (goQuote pubkey ++ ',' :: (intChars createdAt ++
        ',' :: (intChars kind ++ ',' :: (goMarshal (.arr tags) ++
        ',' :: (goQuote content ++ [']']))))) ∧
    (∀ s : List Char, (∀ c ∈ s, 32 ≤ c.toNat ∧ c ≠ '"' ∧ c ≠ '\\' ∧
        c.toNat ≠ 0x2028 ∧ c.toNat ≠ 0x2029) →
      goQuote s = '"' :: (s ++ ['"'])) ∧
    (goEscapeChar '<' = ['<'] ∧ goEscapeChar '>' = ['>'] ∧
      goEscapeChar '&' = ['&']) ∧
    jsonNumberToInt "1.6942e9".toList = some 1694200000 ∧
    trimSuffixNewline (utf8Bytes (goMarshal (.arr [.num 0, .str pubkey,
        .num createdAt, .num kind, .arr tags, .str content])) ++ [10]) =
      utf8Bytes (goMarshal (.arr [.num 0, .str pubkey, .num createdAt,
        .num kind, .arr tags, .str content])) := by
  refine ⟨createEventHash_ok sha fields pubkey content createdAt kind tags
      hpk hca hk ht hc,
    goMarshal_event_array pubkey content createdAt kind tags, ?_, by decide,
    by decide, trimSuffixNewline_append _⟩
  intro s hs
  rw [goQuote, listConcat_goEscapeChar_plain s hs]
  simp

/-- Witness for C3 at a concrete event whose content contains `<`, `>` and
`&` (with the SHA core instantiated to a constant function). -/
theorem claim_c3_witness :
    createEventHash (fun _ => []) (.obj
      [("pubkey".toList, .str "ab".toList),
       ("created_at".toList, .num 1700000000),
       ("kind".toList, .num 1),
       ("tags".toList, .arr []),
       ("content".toList, .str "<b>&".toList)]) = .ok [] :=
  (claim_c3_event_hash (fun _ => [])
    [("pubkey".toList, .str "ab".toList),
     ("created_at".toList, .num 1700000000),
     ("kind".toList, .num 1),
     ("tags".toList, .arr []),
     ("content".toList, .str "<b>&".toList)]
    "ab".toList "<b>&".toList 1700000000 1 [] rfl rfl rfl rfl rfl).1

/-- C4: `signEvent` hashes the serialization built from the event's own
fields — the user-supplied `pubkey` is placed verbatim into the NIP-01 array
even when its bytes differ from the daemon's own pubkey — and the daemon
state enters the result only as the signing key, never in the hashed
serialization. -/
theorem claim_c4_pubkey_verbatim (sha : List Nat → List Nat)
    (sign : List Nat → List Nat → List Nat) (d : DaemonSt)
    (fields : List (List Char × JVal))
    (pubkey content : List Char) (createdAt kind : Int) (tags : List JVal)
    (hpk : lookupField fields "pubkey".toList = some (.str pubkey))
    (hca : lookupField fields "created_at".toList = some (.num createdAt))
    (hk : lookupField fields "kind".toList = some (.num kind))
    (ht : lookupField fields "tags".toList = some (.arr tags))
    (hc : lookupField fields "content".toList = some (.str content))
    (_hmismatch : utf8Bytes pubkey ≠ d.pubkey) :
    daemonSignEvent sha sign d (.obj fields) =
      .ok (sign (d.privateKey.getD []) (sha (utf8Bytes (goMarshal (.arr
        [.num 0, .str pubkey, .num createdAt, .num kind, .arr tags,
         .str content]))))) := by
  rw [daemonSignEvent,
    createEventHash_ok sha fields pubkey content createdAt kind tags
      hpk hca hk ht hc]

/-- Witness for C4: a daemon whose stored pubkey differs from the event's
`pubkey` field still signs the hash of the serialization carrying the
event's own pubkey. -/
theorem claim_c4_witness :
    daemonSignEvent (fun _ => []) (fun _ _ => [9]) ⟨some [7], [1], [2]⟩ (.obj
      [("pubkey".toList, .str "ab".toList),
       ("created_at".toList, .num 1700000000),
       ("kind".toList, .num 1),
       ("tags".toList, .arr []),
       ("content".toList, .str "hi".toList)]) = .ok [9] :=
  claim_c4_pubkey_verbatim (fun _ => []) (fun _ _ => [9]) ⟨some [7], [1], [2]⟩
    [("pubkey".toList, .str "ab".toList),
     ("created_at".toList, .num 1700000000),
     ("kind".toList, .num 1),
     ("tags".toList, .arr []),
     ("content".toList, .str "hi".toList)]
    "ab".toList "hi".toList 1700000000 1 [] rfl rfl rfl rfl rfl (by decide)
